import Mathlib

/-!
Verification of the load-generation and latency-measurement engine embedded in
`generate_benchmark_report.py`: the percentile estimator `pct`, the HTTP/1.1
response framer `read_response`, the worker request loop, the run coordinator
`run_threads` together with its metric recording, and the wrk sanity fallback.

Bytes are modelled as natural numbers, byte strings as `List Nat`, a TCP
receive stream as a list of chunks (`List (List Nat)`) where an exhausted list
models a closed stream, and floating point quantities as exact rationals.
-/

/-! ## Percentile estimator

Embedding of `pct` (generate_benchmark_report.py lines 578-583 and 822-827):

    def pct(values, p):
        if not values:
            return None
        values_sorted = sorted(values)
        idx = min(max(int(len(values_sorted) * p / 100.0), 0), len(values_sorted) - 1)
        return values_sorted[idx]

Python `int(x)` truncates toward zero; `len(values_sorted) * p / 100.0` is
modelled as the exact rational n * p / 100, whose truncation is computed on the
numerator and denominator with integer T-division so that it evaluates in the
kernel.  `pctIndex_eq_floor` connects it to the mathematical floor.
-/

/-- Truncation toward zero of n * p / 100, as computed by `int(n * p / 100.0)`. -/
def pctIndex (n : Nat) (p : ℚ) : Int := ((n : Int) * p.num).tdiv ((100 : Int) * (p.den : Int))

/-- Embedding of the percentile estimator `pct`. `none` models Python `None`. -/
def pct (values : List ℚ) (p : ℚ) : Option ℚ :=
  match values with
  | [] => none
  | _ :: _ =>
    let s := List.insertionSort (fun a b : ℚ => a ≤ b) values
    let idx : Int := min (max (pctIndex s.length p) 0) ((s.length : Int) - 1)
    s.get? idx.toNat

/-! ## Response framer

Embedding of `read_response` (generate_benchmark_report.py lines 544-576 and
788-820).  A socket is modelled as a list of byte chunks; `recv` returns the
next chunk capped at the requested size (pushing back any remainder), and an
exhausted list models a stream that has closed: further `recv` calls return the
empty chunk, as Python `sock.recv` returns `b""` on a closed stream.  The two
`while` loops are written with an explicit fuel argument; `read_response`
instantiates the fuel with a bound (`fuelFor`) that the lemmas below prove
sufficient, so the fuel never alters the modelled behaviour.
-/

/-- ASCII whitespace as used by Python `bytes.split()` and `bytes.strip()`. -/
def isSpaceB (b : Nat) : Bool :=
  b == 32 || b == 9 || b == 10 || b == 13 || b == 11 || b == 12

/-- Python `bytes.strip()`. -/
def pyStrip (xs : List Nat) : List Nat :=
  ((xs.dropWhile isSpaceB).reverse.dropWhile isSpaceB).reverse

/-- Digit run of a Python integer literal: digits with single underscores
allowed only between digits.  The Bool records whether the previous byte was
a digit. -/
def parseDigits : List Nat → Nat → Bool → Option Nat
  | [], acc, lastDigit => if lastDigit then some acc else none
  | b :: rest, acc, lastDigit =>
    if 48 ≤ b ∧ b ≤ 57 then parseDigits rest (acc * 10 + (b - 48)) true
    else if b = 95 then (if lastDigit then parseDigits rest acc false else none)
    else none

/-- Python `int(bytes)`: strips ASCII whitespace, an optional sign, then a digit
run; `none` models the `ValueError` raised on malformed input. -/
def pyInt (xs : List Nat) : Option Int :=
  match pyStrip xs with
  | 43 :: rest => (parseDigits rest 0 false).map (fun n => (n : Int))
  | 45 :: rest => (parseDigits rest 0 false).map (fun n => -(n : Int))
  | s => (parseDigits s 0 false).map (fun n => (n : Int))

/-- Worker for `pySplitWs`; `cur` holds the current token reversed. -/
def pySplitWsAux : List Nat → List Nat → List (List Nat)
  | [], cur => if cur.isEmpty then [] else [cur.reverse]
  | b :: rest, cur =>
    if isSpaceB b then
      if cur.isEmpty then pySplitWsAux rest [] else cur.reverse :: pySplitWsAux rest []
    else pySplitWsAux rest (b :: cur)

/-- Python `bytes.split()` with no separator: split on whitespace runs,
discarding empty tokens. -/
def pySplitWs (xs : List Nat) : List (List Nat) := pySplitWsAux xs []

/-- Python `bytes.lower()` on a single byte. -/
def lowerByte (b : Nat) : Nat := if 65 ≤ b ∧ b ≤ 90 then b + 32 else b

/-- The bytes of `content-length:`. -/
def clHeaderKey : List Nat := [99, 111, 110, 116, 101, 110, 116, 45, 108, 101, 110, 103, 116, 104, 58]

/-- Python `line.split(b":", 1)[1]`: everything after the first colon. -/
def afterFirstColon (line : List Nat) : List Nat := (line.dropWhile (fun b => b != 58)).drop 1

/-- The `content_length` loop of `read_response`: scans the header lines, and on
each case-insensitive `Content-Length` header parses the value after the colon,
falling back to 0 on a parse failure; the last such header wins. -/
def contentLengthOf (lines : List (List Nat)) : Int :=
  lines.foldl (fun acc line =>
    if clHeaderKey.isPrefixOf (line.map lowerByte) then
      match pyInt (pyStrip (afterFirstColon line)) with
      | some v => v
      | none => 0
    else acc) 0

/-- The end-of-headers marker `\r\n\r\n`. -/
def crlfMarker : List Nat := [13, 10, 13, 10]

/-- Split at the first occurrence of `sep`, as Python `data.split(sep, 1)`
restricted to the found/not-found distinction: `some (before, after)` when
`sep` occurs, `none` when it does not. -/
def splitOnFirst (sep : List Nat) : List Nat → Option (List Nat × List Nat)
  | [] => if sep.isPrefixOf ([] : List Nat) then some ([], []) else none
  | a :: rest =>
    if sep.isPrefixOf (a :: rest) then some ([], (a :: rest).drop sep.length)
    else (splitOnFirst sep rest).map (fun p => (a :: p.1, p.2))

/-- Worker for `splitCRLF`; `cur` holds the current line reversed. -/
def splitCRLFAux : List Nat → List Nat → List (List Nat)
  | [], cur => [cur.reverse]
  | 13 :: 10 :: rest, cur => cur.reverse :: splitCRLFAux rest []
  | b :: rest, cur => splitCRLFAux rest (b :: cur)

/-- Python `header.split(b"\r\n")`. -/
def splitCRLF (xs : List Nat) : List (List Nat) := splitCRLFAux xs []

/-- One `sock.recv(n)`: the next chunk, capped at `n` bytes with the remainder
pushed back; the empty chunk signals a closed stream. -/
def recv (st : List (List Nat)) (n : Nat) : List Nat × List (List Nat) :=
  match st with
  | [] => ([], [])
  | c :: cs => if c.length ≤ n then (c, cs) else (c.take n, c.drop n :: cs)

/-- Total number of bytes remaining in the stream. -/
def totalLen : List (List Nat) → Nat
  | [] => 0
  | c :: cs => c.length + totalLen cs

/-- Concatenation of all remaining chunks. -/
def joinChunks : List (List Nat) → List Nat
  | [] => []
  | c :: cs => c ++ joinChunks cs

/-- Fuel sufficient for both loops of `read_response`. -/
def fuelFor (st : List (List Nat)) : Nat := totalLen st + st.length + 2

/-- The header loop: `while b"\r\n\r\n" not in data: chunk = sock.recv(4096); if
not chunk: return None, None; data += chunk`.  Returns the accumulated data and
the remaining stream, or `none` when the stream closes first. -/
def readHeaders : Nat → List Nat → List (List Nat) → Option (List Nat × List (List Nat))
  | 0, _, _ => none
  | fuel + 1, data, st =>
    if (splitOnFirst crlfMarker data).isSome then some (data, st)
    else
      let p := recv st 4096
      if p.1.isEmpty then none
      else readHeaders fuel (data ++ p.1) p.2

/-- The body loop: `while to_read > 0: chunk = sock.recv(to_read); if not chunk:
break; rest += chunk; to_read -= len(chunk)`.  Returns the accumulated body. -/
def readBody : Nat → List Nat → Nat → List (List Nat) → List Nat
  | 0, rest, _, _ => rest
  | fuel + 1, rest, toRead, st =>
    if toRead = 0 then rest
    else
      let p := recv st toRead
      if p.1.isEmpty then rest
      else readBody fuel (rest ++ p.1) (toRead - p.1.length) p.2

/-- Embedding of `read_response`.  `none` models the `(None, None)` malformed
return; `some (status, body)` models a parsed status line and body. -/
def read_response (st : List (List Nat)) : Option (Int × List Nat) :=
  match readHeaders (fuelFor st) [] st with
  | none => none
  | some (data, st1) =>
    match splitOnFirst crlfMarker data with
    | none => none
    | some (header, rest0) =>
      let lines := splitCRLF header
      if lines.length < 1 then none
      else
        let parts := pySplitWs (lines.headD [])
        if parts.length < 2 then none
        else
          match pyInt (parts.getD 1 []) with
          | none => none
          | some status =>
            let cl := contentLengthOf lines.tail
            let toRead := (cl - (rest0.length : Int)).toNat
            some (status, readBody (fuelFor st) rest0 toRead st1)

/-- The bytes of `HTTP/1.1 200 OK\r\nContent-Length: 11\r\n\r\nhello world`. -/
def okResponseBytes : List Nat :=
  [72, 84, 84, 80, 47, 49, 46, 49, 32, 50, 48, 48, 32, 79, 75, 13, 10,
   67, 111, 110, 116, 101, 110, 116, 45, 76, 101, 110, 103, 116, 104, 58, 32, 49, 49, 13, 10,
   13, 10,
   104, 101, 108, 108, 111, 32, 119, 111, 114, 108, 100]

/-- The bytes of `hello world`. -/
def helloWorldBytes : List Nat := [104, 101, 108, 108, 111, 32, 119, 111, 114, 108, 100]

/-- The bytes of `HTTP/1.1 200 OK\r\nContent-Length: 5\r\n\r\nab`: the header
declares a 5-byte body but the stream closes after delivering only 2 bytes. -/
def truncatedResponseBytes : List Nat :=
  [72, 84, 84, 80, 47, 49, 46, 49, 32, 50, 48, 48, 32, 79, 75, 13, 10,
   67, 111, 110, 116, 101, 110, 116, 45, 76, 101, 110, 103, 116, 104, 58, 32, 53, 13, 10,
   13, 10, 97, 98]

/-- The bytes of `HTTP/1.1 ABC\r\n\r\n`: two status-line tokens, headers fully
delivered, declared body length 0, but the status token is not an integer. -/
def nonIntStatusBytes : List Nat :=
  [72, 84, 84, 80, 47, 49, 46, 49, 32, 65, 66, 67, 13, 10, 13, 10]

/-! ### Characterization of `read_response` -/

/-- The whitespace-separated tokens of the status line of a header block. -/
def statusTokens (header : List Nat) : List (List Nat) :=
  pySplitWs ((splitCRLF header).headD [])

/-! ## Worker task

Embedding of the worker loop body of `benchmark_compute_api`
(generate_benchmark_report.py lines 601-639); the `benchmark_validation_api`
worker (lines 844-894) has the identical failure path.  The statistics
dictionaries `totals`, `errors`, `latencies` and `status_hist` are created once
per `run_threads` call (lines 586-589) and captured by every worker closure;
only `socks` and `idx` are local to a worker (lines 603, 609).  One loop
iteration is a pure transition on this state, driven by an environment record
resolving the random variant choice and the outcome of the I/O operations:
`connectResult = none` models `make_socket()` raising, `ioResult = none` models
`sendall`/`recv` raising, and `ioResult = some status` models `read_response`
returning cleanly with that status (`some none` being a malformed response).
Connections are modelled by numeric identities.
-/

/-- The statistics dictionaries of one `run_threads` call, keyed by variant
(payload size).  `status_hist` is an insertion-ordered association list, as a
Python dict. -/
structure WorkerStats where
  totals : Nat → Nat
  errors : Nat → Nat
  latencies : Nat → List ℚ
  status_hist : Nat → List (Option Int × Nat)

/-- The worker-private state: its connection pool and round-robin index. -/
structure WorkerLocal where
  socks : List Nat
  idx : Nat
deriving DecidableEq

/-- The resolved nondeterminism of one loop iteration. -/
structure WorkerEnv where
  size : Nat
  connectResult : Option Nat
  ioResult : Option (Option Int)
  latency : ℚ

/-- Counter bump, `d[k] += 1`, on a function-modelled counter dict. -/
def bump (f : Nat → Nat) (k : Nat) : Nat → Nat := fun x => if x = k then f x + 1 else f x

/-- Histogram read, `hist.get(code, 0)`. -/
def histGet (hist : List (Option Int × Nat)) (code : Option Int) : Nat :=
  match hist.find? (fun p => p.1 == code) with
  | some p => p.2
  | none => 0

/-- Histogram update, `status_hist[size][status] = status_hist[size].get(status, 0) + 1`. -/
def histBump (hist : List (Option Int × Nat)) (code : Option Int) : List (Option Int × Nat) :=
  if hist.any (fun p => p.1 == code) then
    hist.map (fun p => if p.1 == code then (p.1, p.2 + 1) else p)
  else hist ++ [(code, histGet hist code + 1)]

/-- Round-robin borrow, `sock = socks[idx % len(socks)]`, when the pool is nonempty. -/
def borrowConn (lo : WorkerLocal) : Option Nat :=
  if lo.socks.isEmpty then none else some (lo.socks.getD (lo.idx % lo.socks.length) 0)

/-- The statistics update after `read_response` returns cleanly: count the
attempt, record the status, then either append the latency (stats collection on
and status 200) or count an error (status not 200). -/
def recordOutcome (collectStats : Bool) (e : WorkerEnv) (status : Option Int)
    (st : WorkerStats) : WorkerStats :=
  let st1 : WorkerStats :=
    { st with
      totals := bump st.totals e.size,
      status_hist := fun k =>
        if k = e.size then histBump (st.status_hist k) status else st.status_hist k }
  if collectStats ∧ status = some 200 then
    { st1 with
      latencies := fun k =>
        if k = e.size then st1.latencies k ++ [e.latency] else st1.latencies k }
  else if status ≠ some 200 then { st1 with errors := bump st1.errors e.size }
  else st1

/-- One iteration of the worker loop: borrow a pooled connection round-robin
(or open a fresh one when the pool is empty), send the request and read the
response; on any raised I/O error increment the error count of the attempted
variant, close and remove the connection in use, and continue. -/
def workerStep (collectStats : Bool) (e : WorkerEnv) (st : WorkerStats) (lo : WorkerLocal) :
    WorkerStats × WorkerLocal :=
  let idx1 := if lo.socks.isEmpty then lo.idx else lo.idx + 1
  match borrowConn lo with
  | some sock =>
    match e.ioResult with
    | none =>
      ({ st with errors := bump st.errors e.size },
       { socks := lo.socks.erase sock, idx := idx1 })
    | some status => (recordOutcome collectStats e status st, { lo with idx := idx1 })
  | none =>
    match e.connectResult with
    | none => ({ st with errors := bump st.errors e.size }, { lo with idx := idx1 })
    | some fresh =>
      let socks1 := lo.socks ++ [fresh]
      match e.ioResult with
      | none =>
        ({ st with errors := bump st.errors e.size },
         { socks := socks1.erase fresh, idx := idx1 })
      | some status =>
        (recordOutcome collectStats e status st, { socks := socks1, idx := idx1 })

/-- All-zero statistics, as initialized at the top of `run_threads`. -/
def stZero : WorkerStats := ⟨fun _ => 0, fun _ => 0, fun _ => [], fun _ => []⟩

/-- A worker holding the single pooled connection 5. -/
def loOne : WorkerLocal := ⟨[5], 0⟩

/-- An iteration on variant 3 whose send or receive raises. -/
def envRaise : WorkerEnv := ⟨3, none, none, 0⟩

/-- An iteration on variant 3 whose `read_response` returns `(None, None)`:
a malformed response, no exception. -/
def envMalformed : WorkerEnv := ⟨3, none, some none, 0⟩

/-- An iteration on variant `v` that completes with status 200. -/
def envOk (v : Nat) : WorkerEnv := ⟨v, none, some (some 200), 1⟩

/-! ## Run coordinator: shared statistics across workers -/

/-- The state of one `run_threads` call: the single `WorkerStats` record created
at the top of `run_threads` and captured by every worker closure, plus each
private per-worker `socks` and `idx`. -/
structure RunState where
  stats : WorkerStats
  locals : Nat → WorkerLocal

/-- Worker `i` performs one loop iteration: it reads and mutates the one shared
statistics record, and its own private local state. -/
def run_threads_step (collectStats : Bool) (i : Nat) (e : WorkerEnv) (g : RunState) :
    RunState :=
  let r := workerStep collectStats e g.stats (g.locals i)
  { stats := r.1, locals := fun j => if j = i then r.2 else g.locals j }

/-- A fresh run with two workers, worker `i` pooling connection `100 + i`. -/
def runInit : RunState :=
  { stats := stZero, locals := fun i => { socks := [100 + i], idx := 0 } }

/-! ## Metric recording

Embedding of `run_threads` (lines 585-656), the per-thread-count benchmark body
of `benchmark_compute_api` (lines 658-683) and the summary metrics of
`benchmark_validation_api` (lines 913-928).  Metric keys such as
`f"{thread_count}t size={size} p99"` are modelled by the constructors of
`MetricName`; the results dictionary is an insertion-ordered list of entries in
which, as for a Python dict assignment, the last write to a key wins
(`getMetric` searches from the end).  `time.sleep(duration_s)` and the
scheduling of the OS threads are resolved by the environment: the interleaved
schedule of worker iterations and the measured value of
`time.perf_counter() - start_ts` are inputs of `RunEnv`.
-/

inductive MetricUnit
  | reqPerSec
  | count
  | ms
  | pctSuccess
deriving DecidableEq

inductive MetricName
  | threadsThroughput (tc : Nat)
  | threadsErrors (tc : Nat)
  | threadsSuccessRate (tc : Nat)
  | sizeThroughput (tc size : Nat)
  | sizeErrors (tc size : Nat)
  | sizeStatus (tc size : Nat) (code : Int)
  | sizeP (tc size p : Nat)
deriving DecidableEq

/-- One `(key, value, unit)` entry of the results mapping. -/
abbrev Entry := MetricName × ℚ × MetricUnit

/-- The environment of one `run_threads` call: the interleaving of worker-loop
iterations executed before the stop flag is observed by everyone, the initial
per-worker pools, and the measured wall-clock duration of the phase. -/
structure RunEnv where
  schedule : List (Nat × WorkerEnv)
  initialLocals : Nat → WorkerLocal
  measured : ℚ

/-- Embedding of `run_threads` (lines 585-656) minus the metric recording:
zeroed statistics and the environment-given pools, the interleaved schedule of
worker iterations against the shared statistics, and the measured wall-clock
duration `time.perf_counter() - start_ts` returned alongside them. -/
def run_threads (collectStats : Bool) (env : RunEnv) : WorkerStats × ℚ :=
  ((env.schedule.foldl (fun g ie => run_threads_step collectStats ie.1 ie.2 g)
    { stats := stZero, locals := env.initialLocals }).stats, env.measured)

/-- The payload sizes of `benchmark_compute_api`. -/
def sizes : List Nat := [1, 8, 64, 256, 1024]

/-- Denominator guard, `if duration <= 0: duration = 1e-6`. -/
def guardDuration (d : ℚ) : ℚ := if d ≤ 0 then 1 / 1000000 else d

/-- Total attempts, `total_requests = sum(totals.values())`. -/
def totalRequests (st : WorkerStats) : Nat := (sizes.map st.totals).sum

/-- The per-size entries recorded in the body of the `for size in sizes` loop
(lines 671-683): throughput and errors for the size, one status entry per
histogram key (`None` labelled 0), and the three percentiles when any latency
was collected. -/
def perSizeEntries (tc : Nat) (st : WorkerStats) (duration : ℚ) (size : Nat) : List Entry :=
  [(MetricName.sizeThroughput tc size, (st.totals size : ℚ) / duration, MetricUnit.reqPerSec),
   (MetricName.sizeErrors tc size, (st.errors size : ℚ), MetricUnit.count)]
  ++ (st.status_hist size).map
      (fun p => (MetricName.sizeStatus tc size (p.1.getD 0), (p.2 : ℚ), MetricUnit.count))
  ++ (if st.latencies size ≠ [] then
      [(MetricName.sizeP tc size 50, (pct (st.latencies size) 50).getD 0, MetricUnit.ms),
       (MetricName.sizeP tc size 95, (pct (st.latencies size) 95).getD 0, MetricUnit.ms),
       (MetricName.sizeP tc size 99, (pct (st.latencies size) 99).getD 0, MetricUnit.ms)]
    else [])

/-- The metric recording of `benchmark_compute_api` for one thread count
(lines 664-683), appended to the existing results mapping. -/
def recordComputeMetrics (tc : Nat) (st : WorkerStats) (duration0 : ℚ)
    (results : List Entry) : List Entry :=
  let duration := guardDuration duration0
  sizes.foldl (fun acc size => acc ++ perSizeEntries tc st duration size)
    (results
      ++ [(MetricName.threadsThroughput tc, (totalRequests st : ℚ) / duration,
            MetricUnit.reqPerSec),
          (MetricName.threadsErrors tc, ((sizes.map st.errors).sum : ℚ), MetricUnit.count)])

/-- The per-thread-count body of the benchmark loop of `benchmark_compute_api`
(lines 660-683): one discarded warm-up `run_threads` call with stats collection
off, one measured `run_threads` call with stats collection on, then the metric
recording from the measured call only. -/
def benchmarkComputeOne (tc : Nat) (warmupEnv measureEnv : RunEnv)
    (results : List Entry) : List Entry :=
  let _ := run_threads false warmupEnv
  let r := run_threads true measureEnv
  recordComputeMetrics tc r.1 r.2 results

/-- The summary metrics of `benchmark_validation_api` (lines 919-928): overall
throughput over the guarded measured duration, and the success rate dividing by
`max(total_requests, 1)`. -/
def recordValidationSummary (tc : Nat) (totalsValid totalsInvalid successes : Nat)
    (duration0 : ℚ) : List Entry :=
  let total_requests := totalsValid + totalsInvalid
  let duration := guardDuration duration0
  [(MetricName.threadsThroughput tc, (total_requests : ℚ) / duration, MetricUnit.reqPerSec),
   (MetricName.threadsSuccessRate tc,
     ((successes : ℚ) / ((max total_requests 1 : Nat) : ℚ)) * 100, MetricUnit.pctSuccess)]

/-- Lookup in the results mapping: a Python dict assignment overwrites, so the
last write to a key wins. -/
def getMetric (res : List Entry) (n : MetricName) : Option (ℚ × MetricUnit) :=
  (res.reverse.find? (fun p => p.1 == n)).map (fun p => p.2)

/-- A run environment with an empty schedule and a measured duration of 1. -/
def trivialRunEnv : RunEnv :=
  { schedule := [], initialLocals := fun _ => ⟨[], 0⟩, measured := 1 }

/-! ## wrk backend sanity fallback

Embedding of the wrk scenario loops of `benchmark_compute_api` (lines 478-506)
and `benchmark_validation_api` (lines 717-743), which have the same shape.  One
wrk invocation yields either no output (`run_wrk` returned `None` or an empty
string) or a parsed metrics dictionary, abstracted here to the two fields the
sanity check reads (with their presence flags, since a missing field defaults
to 0) plus the entries recorded into the scenario mapping.
-/

/-- The parsed result of one wrk invocation. -/
structure WrkOut where
  socket_errors_present : Bool
  socket_errors : ℚ
  throughput_present : Bool
  throughput : ℚ
  recorded : List Entry

/-- Parsed socket errors, `metrics.get("socket_errors", (0, ""))[0] if "socket_errors" in metrics else 0`. -/
def socketErrsVal (o : WrkOut) : ℚ := if o.socket_errors_present then o.socket_errors else 0

/-- Parsed throughput, `metrics.get("throughput", (0.0, ""))[0] if "throughput" in metrics else 0.0`. -/
def throughputVal (o : WrkOut) : ℚ := if o.throughput_present then o.throughput else 0

/-- One iteration of the wrk scenario loop: no output clears `wrk_ok` and
records nothing; otherwise any socket error or a throughput below the 1000
req/s sanity floor clears `wrk_ok`, and the parsed metrics are recorded. -/
def wrkStep (acc : Bool × List Entry) (out : Option WrkOut) : Bool × List Entry :=
  match out with
  | none => (false, acc.2)
  | some o =>
    let ok := if 0 < socketErrsVal o ∨ throughputVal o < 1000 then false else acc.1
    (ok, acc.2 ++ o.recorded)

/-- The wrk scenario loop: `wrk_ok = True`, then one `wrkStep` per scenario. -/
def wrkLoop (outs : List (Option WrkOut)) (results : List Entry) : Bool × List Entry :=
  outs.foldl wrkStep (true, results)

/-- Lines 500-506: when every scenario looked sane the wrk results are kept and
the built-in path is skipped; otherwise the scenario mapping is reset to empty
(`self.results[category] = {}`) and the built-in legacy client runs on it. -/
def benchmarkWithWrk (outs : List (Option WrkOut)) (legacy : List Entry → List Entry)
    (results : List Entry) : List Entry :=
  let r := wrkLoop outs results
  if r.1 then r.2 else legacy []

/-- A wrk outcome is implausible when there was no output, any socket error was
reported, or the throughput is below the 1000 req/s sanity floor. -/
def wrkBad (o : Option WrkOut) : Prop :=
  o = none ∨ ∃ w, o = some w ∧ (0 < socketErrsVal w ∨ throughputVal w < 1000)

/-! ## Proof development -/

lemma pct_nil (p : ℚ) : pct [] p = none := rfl

/-- For a nonnegative percentile the truncation toward zero agrees with the floor. -/
lemma pctIndex_eq_floor (n : Nat) (p : ℚ) (hp : 0 ≤ p) :
    pctIndex n p = ⌊(n : ℚ) * p / 100⌋ := by
  have hnum : 0 ≤ p.num := Rat.num_nonneg.mpr hp
  have hden0 : ((p.den : ℚ)) ≠ 0 := by
    exact_mod_cast p.den_nz
  have key : (p.num : ℚ) = p * (p.den : ℚ) := by
    have h := Rat.num_div_den p
    exact (div_eq_iff hden0).mp h
  have hcast : (n : ℚ) * p / 100 = (((n : Int) * p.num : Int) : ℚ) / (((100 * p.den : ℕ) : ℚ)) := by
    push_cast
    field_simp
    rw [key]
    ring
  rw [hcast]
  rw [Rat.floor_intCast_div_natCast ((n : Int) * p.num) (100 * p.den)]
  unfold pctIndex
  rw [Int.tdiv_eq_ediv (by positivity) (by positivity)]
  push_cast
  ring_nf

lemma insertionSort_length (values : List ℚ) :
    (List.insertionSort (fun a b : ℚ => a ≤ b) values).length = values.length :=
  (List.perm_insertionSort _ values).length_eq

/-- For a nonempty input the clamped index is strictly below the length. -/
lemma pct_idx_lt (values : List ℚ) (p : ℚ) (hne : values ≠ []) :
    (min (max (pctIndex values.length p) 0) ((values.length : Int) - 1)).toNat
      < values.length := by
  have hlen : 1 ≤ values.length := by
    cases values with
    | nil => exact absurd rfl hne
    | cons a l => exact Nat.succ_le_succ (Nat.zero_le _)
  have h1 : (min (max (pctIndex values.length p) 0) ((values.length : Int) - 1))
      ≤ (values.length : Int) - 1 := min_le_right _ _
  omega

theorem pct_some (values : List ℚ) (p : ℚ) (hne : values ≠ []) :
    ∃ x : ℚ, pct values p = some x ∧ x ∈ values ∧
      x = (List.insertionSort (fun a b : ℚ => a ≤ b) values).getD
            (min (max (pctIndex values.length p) 0)
              ((values.length : Int) - 1)).toNat 0 := by
  obtain ⟨a, l, rfl⟩ := List.exists_cons_of_ne_nil hne
  set vs := a :: l with hvs
  set s := List.insertionSort (fun a b : ℚ => a ≤ b) vs with hs
  have hslen : s.length = vs.length := insertionSort_length vs
  set k := (min (max (pctIndex vs.length p) 0) ((vs.length : Int) - 1)).toNat with hk
  have hklt : k < vs.length := pct_idx_lt vs p (by simp [hvs])
  have hklt' : k < s.length := by rw [hslen]; exact hklt
  have hpct : pct vs p
      = s.get? ((min (max (pctIndex s.length p) 0) ((s.length : Int) - 1)).toNat) := rfl
  rw [hslen] at hpct
  refine ⟨s.get ⟨k, hklt'⟩, ?_, ?_, ?_⟩
  · rw [hpct, ← hk, List.get?_eq_get hklt']
  · exact (List.perm_insertionSort (fun a b : ℚ => a ≤ b) vs).mem_iff.mp
      (List.get_mem s k hklt')
  · rw [List.getD_eq_getElem?_getD, ← List.get?_eq_getElem?, List.get?_eq_get hklt']
    rfl

/-- C1: for every non-empty list of latency samples of size n and every percentile p in
(0,100], `pct` sorts the samples and returns the element at index floor(n*p/100) clamped
to [0, n-1] (an actual sample, never interpolated); on [10,20,30,40,50] it returns 30 for
p=50 and 50 for p=99; on the empty list it returns `none`, never 0 and never a failure. -/
theorem pct_nearest_rank (values : List ℚ) (p : ℚ) (hne : values ≠ [])
    (hp0 : 0 < p) (_hp1 : p ≤ 100) :
    (∀ q : ℚ, pct [] q = none) ∧
    (∃ x : ℚ, pct values p = some x ∧ x ∈ values ∧
      x = (List.insertionSort (fun a b : ℚ => a ≤ b) values).getD
            (min (max ⌊(values.length : ℚ) * p / 100⌋ 0)
              ((values.length : Int) - 1)).toNat 0) ∧
    pct [10, 20, 30, 40, 50] 50 = some 30 ∧
    pct [10, 20, 30, 40, 50] 99 = some 50 := by
  refine ⟨fun q => pct_nil q, ?_, by decide, by decide⟩
  have h := pct_some values p hne
  rwa [pctIndex_eq_floor values.length p (le_of_lt hp0)] at h

theorem pct_nearest_rank_witness :
    ([10, 20, 30, 40, 50] : List ℚ) ≠ [] ∧ (0 : ℚ) < 50 ∧ (50 : ℚ) ≤ 100 ∧
    pct [10, 20, 30, 40, 50] 50 = some 30 :=
  ⟨by decide, by norm_num, by norm_num,
    (pct_nearest_rank [10, 20, 30, 40, 50] 50 (by decide) (by norm_num)
      (by norm_num)).2.2.1⟩

/-! ### Structure of `splitOnFirst` -/

lemma splitOnFirst_some_eq (sep : List Nat) :
    ∀ xs h t, splitOnFirst sep xs = some (h, t) → xs = h ++ sep ++ t := by
  intro xs
  induction xs with
  | nil =>
    intro h t hd
    simp only [splitOnFirst] at hd
    split at hd
    · rename_i hs
      have hsep : sep = [] := List.prefix_nil.mp ( List.isPrefixOf_iff_prefix.mp hs)
      obtain ⟨rfl, rfl⟩ := by simpa using hd
      simp [hsep]
    · exact absurd hd (by simp)
  | cons a rest ih =>
    intro h t hd
    simp only [splitOnFirst] at hd
    split at hd
    · rename_i hs
      obtain ⟨rfl, rfl⟩ := by simpa using hd
      have := List.prefix_iff_eq_append.mp ( List.isPrefixOf_iff_prefix.mp hs)
      simpa using this.symm
    · rename_i hs
      match hrec : splitOnFirst sep rest with
      | none => rw [hrec] at hd; exact absurd hd (by simp)
      | some (h1, t1) =>
        rw [hrec] at hd
        obtain ⟨rfl, rfl⟩ := by simpa using hd
        have := ih h1 t1 hrec
        simp [this]

lemma splitOnFirst_append_some (sep : List Nat) :
    ∀ d e h t, splitOnFirst sep d = some (h, t) →
      splitOnFirst sep (d ++ e) = some (h, t ++ e) := by
  intro d
  induction d with
  | nil =>
    intro e h t hd
    simp only [splitOnFirst] at hd
    split at hd
    · rename_i hs
      have hsep : sep = [] := List.prefix_nil.mp ( List.isPrefixOf_iff_prefix.mp hs)
      obtain ⟨rfl, rfl⟩ := by simpa using hd
      subst hsep
      cases e with
      | nil => simp [splitOnFirst]
      | cons x xs => simp [splitOnFirst, List.isPrefixOf]
    · exact absurd hd (by simp)
  | cons a rest ih =>
    intro e h t hd
    simp only [splitOnFirst] at hd
    split at hd
    · rename_i hs
      obtain ⟨rfl, rfl⟩ := by simpa using hd
      have hs' : sep.isPrefixOf ((a :: rest) ++ e) := by
        rw [ List.isPrefixOf_iff_prefix] at hs ⊢
        exact hs.trans (List.prefix_append _ _)
      have hlen : sep.length ≤ (a :: rest).length :=
        ( List.isPrefixOf_iff_prefix.mp hs).length_le
      rw [List.cons_append, splitOnFirst]
      rw [← List.cons_append]
      rw [if_pos hs']
      rw [List.drop_append_of_le_length hlen]
    · rename_i hs
      match hrec : splitOnFirst sep rest with
      | none => rw [hrec] at hd; exact absurd hd (by simp)
      | some (h1, t1) =>
        rw [hrec] at hd
        obtain ⟨rfl, rfl⟩ := by simpa using hd
        have hrestlen : sep.length ≤ rest.length := by
          have := splitOnFirst_some_eq sep rest h1 t1 hrec
          subst this
          simp
          omega
        have hs2 : ¬ sep.isPrefixOf ((a :: rest) ++ e) := by
          intro hcon
          apply hs
          rw [ List.isPrefixOf_iff_prefix] at hcon ⊢
          rw [List.prefix_iff_eq_take] at hcon ⊢
          rw [List.take_append_of_le_length (by simp; omega)] at hcon
          exact hcon
        rw [List.cons_append, splitOnFirst]
        rw [← List.cons_append]
        rw [if_neg hs2]
        rw [ih e h1 t1 hrec]
        rfl

/-! ### Loop lemmas -/

lemma splitCRLFAux_ne_nil : ∀ xs cur, splitCRLFAux xs cur ≠ [] := by
  intro xs cur
  induction xs, cur using splitCRLFAux.induct with
  | case1 cur => simp [splitCRLFAux]
  | case2 rest cur ih => simp [splitCRLFAux]
  | case3 b rest cur h ih => simpa [splitCRLFAux] using ih

lemma splitCRLF_ne_nil (xs : List Nat) : splitCRLF xs ≠ [] := splitCRLFAux_ne_nil xs []

lemma readBody_zero (fuel : Nat) (rest : List Nat) (st : List (List Nat)) (hf : 1 ≤ fuel) :
    readBody fuel rest 0 st = rest := by
  cases fuel with
  | zero => omega
  | succ n => simp [readBody]

lemma readBody_eq : ∀ fuel st rest n, (∀ c ∈ st, c ≠ []) → st.length + 2 ≤ fuel →
    readBody fuel rest n st = rest ++ (joinChunks st).take n := by
  intro fuel
  induction fuel with
  | zero => intro st rest n hne hf; omega
  | succ m ih =>
    intro st rest n hne hf
    by_cases hn : n = 0
    · subst hn; simp [readBody]
    · cases st with
      | nil =>
        simp [readBody, recv, joinChunks, hn]
      | cons c cs =>
        have hc : c ≠ [] := hne c (by simp)
        by_cases hlen : c.length ≤ n
        · have hcne : c.isEmpty = false := by
            simp [List.isEmpty_iff]; exact hc
          simp only [readBody, if_neg hn, recv, if_pos hlen, hcne, Bool.false_eq_true, if_false]
          rw [ih cs (rest ++ c) (n - c.length) (fun x hx => hne x (by simp [hx]))
            (by simp at hf ⊢; omega)]
          show rest ++ c ++ (joinChunks cs).take (n - c.length)
            = rest ++ (c ++ joinChunks cs).take n
          rw [List.take_append_eq_append_take, List.take_of_length_le hlen, List.append_assoc]
        · have htklen : (c.take n).length = n := by
            rw [List.length_take]; omega
          have htk : (c.take n).isEmpty = false := by
            have hne0 : c.take n ≠ [] := by
              intro hcon
              have := congrArg List.length hcon
              rw [htklen] at this
              simp at this
              omega
            simpa [List.isEmpty_iff] using hne0
          simp only [readBody, if_neg hn, recv, if_neg hlen, htk, Bool.false_eq_true, if_false]
          rw [htklen, Nat.sub_self]
          rw [readBody_zero m _ _ (by simp at hf; omega)]
          show rest ++ c.take n = rest ++ (c ++ joinChunks cs).take n
          rw [List.take_append_eq_append_take]
          have : n - c.length = 0 := by omega
          rw [this]
          simp

lemma joinChunks_cons (c : List Nat) (cs : List (List Nat)) :
    joinChunks (c :: cs) = c ++ joinChunks cs := rfl

lemma totalLen_cons (c : List Nat) (cs : List (List Nat)) :
    totalLen (c :: cs) = c.length + totalLen cs := rfl

lemma isEmpty_false_of_ne_nil {c : List Nat} (hc : c ≠ []) : c.isEmpty = false := by
  simpa [List.isEmpty_iff] using hc

/-- If the loop data does not yet contain the marker, one iteration of
`readHeaders` consumes the next chunk (split at 4096 bytes). -/
lemma readHeaders_step_whole (m : Nat) (data : List Nat) (c : List Nat)
    (cs : List (List Nat)) (hdata : splitOnFirst crlfMarker data = none)
    (hc : c ≠ []) (hlen : c.length ≤ 4096) :
    readHeaders (m + 1) data (c :: cs) = readHeaders m (data ++ c) cs := by
  simp [readHeaders, hdata, recv, hlen, isEmpty_false_of_ne_nil hc]

lemma readHeaders_step_split (m : Nat) (data : List Nat) (c : List Nat)
    (cs : List (List Nat)) (hdata : splitOnFirst crlfMarker data = none)
    (_hc : c ≠ []) (hlen : ¬ c.length ≤ 4096) :
    readHeaders (m + 1) data (c :: cs)
      = readHeaders m (data ++ c.take 4096) (c.drop 4096 :: cs) := by
  have htkne : c.take 4096 ≠ [] := by
    intro hcon
    have hlen0 : (c.take 4096).length = 0 := by rw [hcon]; rfl
    rw [List.length_take] at hlen0
    omega
  simp [readHeaders, hdata, recv, hlen, isEmpty_false_of_ne_nil htkne]

lemma readHeaders_exit (m : Nat) (data : List Nat) (st : List (List Nat)) (h0 t0 : List Nat)
    (hdata : splitOnFirst crlfMarker data = some (h0, t0)) :
    readHeaders (m + 1) data st = some (data, st) := by
  simp [readHeaders, hdata]

lemma readHeaders_closed (m : Nat) (data : List Nat)
    (hdata : splitOnFirst crlfMarker data = none) :
    readHeaders (m + 1) data [] = none := by
  simp [readHeaders, hdata, recv]

lemma readHeaders_none : ∀ fuel data st, (∀ c ∈ st, c ≠ []) → totalLen st + 1 ≤ fuel →
    splitOnFirst crlfMarker (data ++ joinChunks st) = none →
    readHeaders fuel data st = none := by
  intro fuel
  induction fuel with
  | zero => intro data st hne hf hm; omega
  | succ m ih =>
    intro data st hne hf hm
    have hdata : splitOnFirst crlfMarker data = none := by
      match hd : splitOnFirst crlfMarker data with
      | none => rfl
      | some (h0, t0) =>
        have := splitOnFirst_append_some crlfMarker data (joinChunks st) h0 t0 hd
        rw [hm] at this
        cases this
    cases st with
    | nil => exact readHeaders_closed m data hdata
    | cons c cs =>
      have hc : c ≠ [] := hne c (by simp)
      have hc1 : 1 ≤ c.length := by
        cases c with
        | nil => exact absurd rfl hc
        | cons x xs => simp
      by_cases hlen : c.length ≤ 4096
      · rw [readHeaders_step_whole m data c cs hdata hc hlen]
        apply ih (data ++ c) cs (fun x hx => hne x (by simp [hx]))
        · rw [totalLen_cons] at hf; omega
        · rw [List.append_assoc]; exact hm
      · rw [readHeaders_step_split m data c cs hdata hc hlen]
        apply ih (data ++ c.take 4096) (c.drop 4096 :: cs)
        · intro x hx
          simp only [List.mem_cons] at hx
          rcases hx with rfl | hx
          · intro hcon
            rw [List.drop_eq_nil_iff] at hcon
            omega
          · exact hne x (by simp [hx])
        · rw [totalLen_cons] at hf
          rw [totalLen_cons, List.length_drop]
          omega
        · have hjoin : data ++ c.take 4096 ++ (c.drop 4096 ++ joinChunks cs)
              = data ++ joinChunks (c :: cs) := by
            rw [joinChunks_cons, List.append_assoc data (c.take 4096),
              ← List.append_assoc (c.take 4096), List.take_append_drop]
          rw [joinChunks_cons, hjoin]
          exact hm

lemma readHeaders_some : ∀ fuel data st h t, (∀ c ∈ st, c ≠ []) → totalLen st + 1 ≤ fuel →
    splitOnFirst crlfMarker (data ++ joinChunks st) = some (h, t) →
    ∃ d st1 t1, readHeaders fuel data st = some (d, st1) ∧
      splitOnFirst crlfMarker d = some (h, t1) ∧ t1 ++ joinChunks st1 = t ∧
      (∀ c ∈ st1, c ≠ []) ∧ st1.length ≤ st.length := by
  intro fuel
  induction fuel with
  | zero => intro data st h t hne hf hm; omega
  | succ m ih =>
    intro data st h t hne hf hm
    match hd : splitOnFirst crlfMarker data with
    | some (h0, t0) =>
      have happ := splitOnFirst_append_some crlfMarker data (joinChunks st) h0 t0 hd
      rw [hm] at happ
      obtain ⟨rfl, rfl⟩ := by simpa using happ
      exact ⟨data, st, t0, readHeaders_exit m data st h t0 hd, hd, rfl, hne, le_refl _⟩
    | none =>
      cases st with
      | nil =>
        rw [joinChunks, List.append_nil] at hm
        rw [hm] at hd
        cases hd
      | cons c cs =>
        have hc : c ≠ [] := hne c (by simp)
        have hc1 : 1 ≤ c.length := by
          cases c with
          | nil => exact absurd rfl hc
          | cons x xs => simp
        by_cases hlen : c.length ≤ 4096
        · rw [readHeaders_step_whole m data c cs hd hc hlen]
          obtain ⟨d, st1, t1, h1, h2, h3, h4, h5⟩ :=
            ih (data ++ c) cs h t (fun x hx => hne x (by simp [hx]))
              (by rw [totalLen_cons] at hf; omega)
              (by rw [List.append_assoc]; exact hm)
          exact ⟨d, st1, t1, h1, h2, h3, h4, le_trans h5 (by simp)⟩
        · rw [readHeaders_step_split m data c cs hd hc hlen]
          have hmain := ih (data ++ c.take 4096) (c.drop 4096 :: cs) h t ?hne ?hf ?hm
          · obtain ⟨d, st1, t1, h1, h2, h3, h4, h5⟩ := hmain
            refine ⟨d, st1, t1, h1, h2, h3, h4, ?_⟩
            simpa using h5
          case hne =>
            intro x hx
            simp only [List.mem_cons] at hx
            rcases hx with rfl | hx
            · intro hcon
              rw [List.drop_eq_nil_iff] at hcon
              omega
            · exact hne x (by simp [hx])
          case hf =>
            rw [totalLen_cons] at hf
            rw [totalLen_cons, List.length_drop]
            omega
          case hm =>
            have hjoin : data ++ c.take 4096 ++ (c.drop 4096 ++ joinChunks cs)
                = data ++ joinChunks (c :: cs) := by
              rw [joinChunks_cons, List.append_assoc data (c.take 4096),
                ← List.append_assoc (c.take 4096), List.take_append_drop]
            rw [joinChunks_cons, hjoin]
            exact hm

lemma splitCRLF_length_pos (xs : List Nat) : ¬ (splitCRLF xs).length < 1 := by
  have hne := splitCRLF_ne_nil xs
  cases hsc : splitCRLF xs with
  | nil => exact absurd hsc hne
  | cons x l => simp

lemma fuelFor_headers (st : List (List Nat)) : totalLen st + 1 ≤ fuelFor st := by
  simp [fuelFor]
  omega

/-- Behaviour of `read_response` when the flattened stream contains the
end-of-headers marker: the header is everything before the first marker, and the
outcome is decided by the status-line tokens; a successful parse returns the
buffered bytes past the marker plus up to the declared remainder of the body. -/
lemma read_response_cases (st : List (List Nat)) (h t : List Nat)
    (hne : ∀ c ∈ st, c ≠ [])
    (hm : splitOnFirst crlfMarker (joinChunks st) = some (h, t)) :
    ∃ t1 t2 : List Nat, t = t1 ++ t2 ∧
      ((statusTokens h).length < 2 → read_response st = none) ∧
      (∀ status : Int, ¬ (statusTokens h).length < 2 →
        pyInt ((statusTokens h).getD 1 []) = some status →
        read_response st = some (status,
          t1 ++ t2.take ((contentLengthOf (splitCRLF h).tail - (t1.length : Int)).toNat))) ∧
      (¬ (statusTokens h).length < 2 → pyInt ((statusTokens h).getD 1 []) = none →
        read_response st = none) := by
  obtain ⟨d, st1, t1, h1, h2, h3, h4, h5⟩ :=
    readHeaders_some (fuelFor st) [] st h t hne (fuelFor_headers st) (by simpa using hm)
  refine ⟨t1, joinChunks st1, h3.symm, ?_, ?_, ?_⟩
  · intro hp
    unfold statusTokens at hp
    simp only [read_response, h1, h2]
    rw [if_neg (splitCRLF_length_pos h), if_pos hp]
  · intro status hp hs
    unfold statusTokens at hp hs
    simp only [read_response, h1, h2]
    rw [if_neg (splitCRLF_length_pos h), if_neg hp, hs]
    rw [readBody_eq (fuelFor st) st1 t1 _ h4 (by simp [fuelFor]; omega)]
  · intro hp hs
    unfold statusTokens at hp hs
    simp only [read_response, h1, h2]
    rw [if_neg (splitCRLF_length_pos h), if_neg hp, hs]

/-- When the stream closes before the end-of-headers marker ever appears,
`read_response` reports a malformed response. -/
lemma read_response_no_marker (st : List (List Nat))
    (hne : ∀ c ∈ st, c ≠ [])
    (hm : splitOnFirst crlfMarker (joinChunks st) = none) :
    read_response st = none := by
  simp only [read_response]
  rw [readHeaders_none (fuelFor st) [] st hne (fuelFor_headers st) (by simpa using hm)]

/-- C2 counterexample: the claim says `read_response` fails exactly when the
status line has fewer than two tokens, the stream closes before the
end-of-headers marker, or the stream closes before the declared body length is
delivered.  Both directions fail on the code.  First, for a response declaring
`Content-Length: 5` whose stream closes after delivering 2 body bytes,
`read_response` does not fail: it returns status 200 with the truncated body.
Second, for `HTTP/1.1 ABC\r\n\r\n` the headers are fully delivered, the status
line has two tokens and the declared body length 0 is fully delivered, yet
`read_response` fails because the status token is not an integer. -/
theorem read_response_exactness_fails :
    (splitOnFirst crlfMarker truncatedResponseBytes
        = some (truncatedResponseBytes.take 34, [97, 98]) ∧
      contentLengthOf (splitCRLF (truncatedResponseBytes.take 34)).tail = 5 ∧
      read_response [truncatedResponseBytes] = some (200, [97, 98])) ∧
    ((statusTokens (nonIntStatusBytes.take 12)).length = 2 ∧
      splitOnFirst crlfMarker nonIntStatusBytes = some (nonIntStatusBytes.take 12, []) ∧
      contentLengthOf (splitCRLF (nonIntStatusBytes.take 12)).tail = 0 ∧
      read_response [nonIntStatusBytes] = none) := by
  exact ⟨⟨by decide, by decide, by decide⟩, ⟨by decide, by decide, by decide, by decide⟩⟩

/-- C2 (amended): for every stream of nonempty chunks, `read_response` reports a
malformed response exactly when the stream closes before the end-of-headers
marker appears, the status line has fewer than two whitespace-separated tokens,
or the second status-line token is not a valid integer literal.  A stream that
closes before the declared body length is fully delivered is not a failure: the
parsed status is returned with the partial body. -/
theorem read_response_failure_cases (st : List (List Nat)) (hne : ∀ c ∈ st, c ≠ []) :
    read_response st = none ↔
      (splitOnFirst crlfMarker (joinChunks st) = none ∨
       ∃ h t, splitOnFirst crlfMarker (joinChunks st) = some (h, t) ∧
         ((statusTokens h).length < 2 ∨ pyInt ((statusTokens h).getD 1 []) = none)) := by
  constructor
  · intro hnone
    match hm : splitOnFirst crlfMarker (joinChunks st) with
    | none => exact Or.inl rfl
    | some (h, t) =>
      refine Or.inr ⟨h, t, rfl, ?_⟩
      by_cases hp : (statusTokens h).length < 2
      · exact Or.inl hp
      · right
        match hs : pyInt ((statusTokens h).getD 1 []) with
        | none => rfl
        | some status =>
          obtain ⟨t1, t2, -, -, hsome, -⟩ := read_response_cases st h t hne hm
          rw [hsome status hp hs] at hnone
          cases hnone
  · intro hcase
    rcases hcase with hm | ⟨h, t, hm, hbad⟩
    · exact read_response_no_marker st hne hm
    · obtain ⟨t1, t2, -, hfew, -, hbadstat⟩ := read_response_cases st h t hne hm
      rcases hbad with hp | hs
      · exact hfew hp
      · by_cases hp : (statusTokens h).length < 2
        · exact hfew hp
        · exact hbadstat hp hs

theorem read_response_failure_cases_witness :
    (∀ c ∈ [[72, 84]], c ≠ ([] : List Nat)) ∧
    (read_response [[72, 84]] = none ↔
      (splitOnFirst crlfMarker (joinChunks [[72, 84]]) = none ∨
       ∃ h t, splitOnFirst crlfMarker (joinChunks [[72, 84]]) = some (h, t) ∧
         ((statusTokens h).length < 2 ∨ pyInt ((statusTokens h).getD 1 []) = none))) :=
  ⟨by decide, read_response_failure_cases [[72, 84]] (by decide)⟩

/-- C3: for every way of splitting the well-formed response with header
`Content-Length: 11` and body `hello world` into 3 successive nonempty byte
chunks, `read_response` returns status 200 and body `hello world`: the parse
result does not depend on chunk boundaries. -/
theorem read_response_split_invariance (a b : Nat) (h1 : 0 < a) (h2 : a < b) (h3 : b < 50) :
    read_response [okResponseBytes.take a, (okResponseBytes.drop a).take (b - a),
      okResponseBytes.drop b] = some (200, helloWorldBytes) := by
  set st := [okResponseBytes.take a, (okResponseBytes.drop a).take (b - a),
    okResponseBytes.drop b] with hst
  have hlenR : okResponseBytes.length = 50 := by decide
  have hjoin : joinChunks st = okResponseBytes := by
    rw [hst]
    show okResponseBytes.take a
        ++ ((okResponseBytes.drop a).take (b - a) ++ (okResponseBytes.drop b ++ [])) = _
    rw [List.append_nil]
    have hdd : okResponseBytes.drop b = ((okResponseBytes.drop a).drop (b - a)) := by
      rw [List.drop_drop]
      congr 1
      omega
    rw [hdd, List.take_append_drop, List.take_append_drop]
  have hne : ∀ c ∈ st, c ≠ [] := by
    intro c hc
    rw [hst] at hc
    simp only [List.mem_cons, List.not_mem_nil, or_false] at hc
    rcases hc with rfl | rfl | rfl
    · intro hcon
      have := congrArg List.length hcon
      rw [List.length_take, hlenR] at this
      simp at this
      omega
    · intro hcon
      have := congrArg List.length hcon
      rw [List.length_take, List.length_drop, hlenR] at this
      simp at this
      omega
    · intro hcon
      have := congrArg List.length hcon
      rw [List.length_drop, hlenR] at this
      simp at this
      omega
  have hm : splitOnFirst crlfMarker (joinChunks st)
      = some (okResponseBytes.take 35, helloWorldBytes) := by
    rw [hjoin]; decide
  obtain ⟨t1, t2, ht, -, hsome, -⟩ :=
    read_response_cases st (okResponseBytes.take 35) helloWorldBytes hne hm
  have hcl : contentLengthOf (splitCRLF (okResponseBytes.take 35)).tail = 11 := by decide
  have htok : ¬ (statusTokens (okResponseBytes.take 35)).length < 2 := by decide
  have hstat : pyInt ((statusTokens (okResponseBytes.take 35)).getD 1 []) = some 200 := by
    decide
  have hres := hsome 200 htok hstat
  rw [hcl] at hres
  have hl11 : helloWorldBytes.length = 11 := by decide
  have hlen11 : t1.length + t2.length = 11 := by
    have := congrArg List.length ht
    rw [hl11, List.length_append] at this
    omega
  have htake : ((11 : Int) - (t1.length : Int)).toNat = t2.length := by omega
  rw [htake, List.take_length] at hres
  rw [ht]
  exact hres

theorem read_response_split_invariance_witness :
    0 < 17 ∧ 17 < 37 ∧ 37 < 50 ∧
    read_response [okResponseBytes.take 17, (okResponseBytes.drop 17).take (37 - 17),
      okResponseBytes.drop 37] = some (200, helloWorldBytes) :=
  ⟨by decide, by decide, by decide,
    read_response_split_invariance 17 37 (by decide) (by decide) (by decide)⟩

/-- C4: on any iteration in which an I/O operation (connect, send or receive)
raises, the worker increments the error count of the attempted variant exactly
once, leaves all other statistics untouched, discards the connection it was
using (the pool loses exactly that connection; when the failure was the connect
itself there is no connection to discard), and continues: the step is total, so
no exception propagates out of the loop and a single failure never terminates
the worker. -/
theorem worker_io_failure_handling (cs : Bool) (e : WorkerEnv) (st : WorkerStats)
    (lo : WorkerLocal) (hnd : lo.socks.Nodup)
    (hraise : e.ioResult = none ∨ (lo.socks = [] ∧ e.connectResult = none)) :
    ((workerStep cs e st lo).1.errors e.size = st.errors e.size + 1) ∧
    (∀ v, v ≠ e.size → (workerStep cs e st lo).1.errors v = st.errors v) ∧
    (workerStep cs e st lo).1.totals = st.totals ∧
    (workerStep cs e st lo).1.latencies = st.latencies ∧
    (workerStep cs e st lo).1.status_hist = st.status_hist ∧
    (lo.socks ≠ [] →
      (workerStep cs e st lo).2.socks
          = lo.socks.erase (lo.socks.getD (lo.idx % lo.socks.length) 0) ∧
        lo.socks.getD (lo.idx % lo.socks.length) 0 ∉ (workerStep cs e st lo).2.socks) ∧
    (lo.socks = [] → (workerStep cs e st lo).2.socks = []) := by
  by_cases hpool : lo.socks.isEmpty
  · have hnil : lo.socks = [] := by simpa [List.isEmpty_iff] using hpool
    rcases hraise with hio | ⟨-, hconn⟩
    · cases hcr : e.connectResult with
      | none =>
        simp [workerStep, borrowConn, hpool, hcr, bump, hnil]
      | some fresh =>
        simp [workerStep, borrowConn, hpool, hcr, hio, bump, hnil]
    · simp [workerStep, borrowConn, hpool, hconn, bump, hnil]
  · have hnil : lo.socks ≠ [] := by simpa [List.isEmpty_iff] using hpool
    rcases hraise with hio | ⟨habs, -⟩
    · constructor
      · simp [workerStep, borrowConn, hpool, hio, bump]
      constructor
      · intro v hv
        simp [workerStep, borrowConn, hpool, hio, bump, hv]
      refine ⟨by simp [workerStep, borrowConn, hpool, hio],
        by simp [workerStep, borrowConn, hpool, hio],
        by simp [workerStep, borrowConn, hpool, hio], ?_, fun habs => absurd habs hnil⟩
      intro _
      constructor
      · simp [workerStep, borrowConn, hpool, hio]
      · simp only [workerStep, borrowConn, hpool, hio]
        intro hmem
        have := (List.Nodup.mem_erase_iff hnd).mp (by simpa using hmem)
        exact this.1 rfl
    · exact absurd habs hnil

theorem worker_io_failure_handling_witness :
    loOne.socks.Nodup ∧
    (envRaise.ioResult = none ∨ (loOne.socks = [] ∧ envRaise.connectResult = none)) ∧
    ((workerStep true envRaise stZero loOne).1.errors envRaise.size
        = stZero.errors envRaise.size + 1) :=
  ⟨by decide, Or.inl rfl,
    (worker_io_failure_handling true envRaise stZero loOne (by decide) (Or.inl rfl)).1⟩

/-- C5 counterexample: the claim says a malformed response is handled
identically to a connection-level I/O failure, with the connection discarded
and never reused and a replacement opened on the next attempt.  In fact when
`read_response` returns no status the success-path code runs: the error is
counted, but the connection stays in the pool unchanged and the very next
borrow returns the same connection again; no replacement is opened. -/
theorem malformed_response_keeps_connection :
    ((workerStep true envMalformed stZero loOne).1.errors 3 = 1) ∧
    ((workerStep true envMalformed stZero loOne).2.socks = loOne.socks) ∧
    (borrowConn (workerStep true envMalformed stZero loOne).2 = some 5) := by
  refine ⟨by decide, by decide, by decide⟩

/-- C5 (amended): a malformed response (read_response yields no status) is
counted exactly once against the attempted variant, as a connection-level I/O
failure is; but unlike an I/O failure the connection on which it occurred is
not discarded: the pool is left unchanged, so the same connection remains
available for later attempts and no replacement is opened. -/
theorem malformed_response_counted_once (cs : Bool) (e : WorkerEnv) (st : WorkerStats)
    (lo : WorkerLocal) (hpool : ¬ lo.socks.isEmpty) (hmal : e.ioResult = some none) :
    ((workerStep cs e st lo).1.errors e.size = st.errors e.size + 1) ∧
    (∀ v, v ≠ e.size → (workerStep cs e st lo).1.errors v = st.errors v) ∧
    ((workerStep cs e st lo).2.socks = lo.socks) := by
  refine ⟨?_, ?_, ?_⟩
  · simp [workerStep, borrowConn, hpool, hmal, recordOutcome, bump]
  · intro v hv
    simp [workerStep, borrowConn, hpool, hmal, recordOutcome, bump, hv]
  · simp [workerStep, borrowConn, hpool, hmal, recordOutcome]

theorem malformed_response_counted_once_witness :
    (¬ loOne.socks.isEmpty) ∧ envMalformed.ioResult = some none ∧
    ((workerStep true envMalformed stZero loOne).1.errors envMalformed.size
        = stZero.errors envMalformed.size + 1) :=
  ⟨by decide, rfl,
    (malformed_response_counted_once true envMalformed stZero loOne (by decide) rfl).1⟩

lemma workerStep_totals_bump (cs : Bool) (e : WorkerEnv) (st : WorkerStats)
    (lo : WorkerLocal) (hpool : ¬ lo.socks.isEmpty) (hio : ∃ s, e.ioResult = some s) :
    (workerStep cs e st lo).1.totals = bump st.totals e.size := by
  obtain ⟨s, hs⟩ := hio
  simp only [workerStep, borrowConn, hpool, Bool.false_eq_true, if_false, hs]
  unfold recordOutcome
  split
  · rfl
  · split
    · rfl
    · rfl

/-- C6 counterexample: the claim says the statistics of each worker are private to
that worker and mutated by no other thread until a post-join merge.  In the
code the statistics dictionaries are created once per run and shared: worker 0
completes one successful attempt on variant 3 and the shared totals bucket
becomes 1; the subsequent attempt of worker 1 reads and increments that same bucket
to 2 before any join or merge; only the worker-local pool state is private. -/
theorem worker_stats_not_private :
    ((run_threads_step true 0 (envOk 3) runInit).stats.totals 3 = 1) ∧
    ((run_threads_step true 1 (envOk 3)
        (run_threads_step true 0 (envOk 3) runInit)).stats.totals 3 = 2) ∧
    ((run_threads_step true 0 (envOk 3) runInit).locals 1 = runInit.locals 1) := by
  refine ⟨by decide, by decide, by decide⟩

/-- C6 (amended): the stop flag is not the only cross-thread-mutated state on
the hot path: the statistics dictionaries (attempt totals, error counts,
latency lists, status histograms) are created once per `run_threads` call and
shared by all workers, each of which mutates them directly inside its loop, so
counted attempts from different workers accumulate in the same record with no
per-worker copy and no post-join merge; only the connection pool and
round-robin index (`socks`, `idx`) are private to a worker. -/
theorem worker_stats_shared (cs : Bool) (i j v : Nat) (e e2 : WorkerEnv) (g : RunState)
    (hij : j ≠ i) (hv : e.size = v) (hv2 : e2.size = v)
    (hio : ∃ s, e.ioResult = some s) (hio2 : ∃ s, e2.ioResult = some s)
    (hp1 : ¬ (g.locals i).socks.isEmpty) (hp2 : ¬ (g.locals j).socks.isEmpty) :
    ((run_threads_step cs j e2 (run_threads_step cs i e g)).stats.totals v
        = g.stats.totals v + 2) ∧
    ((run_threads_step cs i e g).locals j = g.locals j) := by
  have hpriv : (run_threads_step cs i e g).locals j = g.locals j := by
    simp [run_threads_step, hij]
  constructor
  · have h1 : (run_threads_step cs i e g).stats.totals = bump g.stats.totals e.size := by
      simp only [run_threads_step]
      exact workerStep_totals_bump cs e g.stats (g.locals i) hp1 hio
    have h2 : (run_threads_step cs j e2 (run_threads_step cs i e g)).stats.totals
        = bump (run_threads_step cs i e g).stats.totals e2.size := by
      simp only [run_threads_step]
      exact workerStep_totals_bump cs e2 _ _ (by simp only [if_neg hij]; exact hp2) hio2
    rw [h2, h1, hv, hv2]
    simp [bump]
  · exact hpriv

theorem worker_stats_shared_witness :
    (1 ≠ 0) ∧ ((envOk 3).size = 3) ∧
    (∃ s, (envOk 3).ioResult = some s) ∧
    (¬ (runInit.locals 0).socks.isEmpty) ∧ (¬ (runInit.locals 1).socks.isEmpty) ∧
    ((run_threads_step true 1 (envOk 3)
        (run_threads_step true 0 (envOk 3) runInit)).stats.totals 3
      = runInit.stats.totals 3 + 2) :=
  ⟨by decide, rfl, ⟨some 200, rfl⟩, by decide, by decide,
    (worker_stats_shared true 0 1 3 (envOk 3) (envOk 3) runInit (by decide) rfl rfl
      ⟨some 200, rfl⟩ ⟨some 200, rfl⟩ (by decide) (by decide)).1⟩

lemma getMetric_append_right (l1 l2 : List Entry) (n : MetricName)
    (h : ∀ p ∈ l2, p.1 ≠ n) : getMetric (l1 ++ l2) n = getMetric l1 n := by
  unfold getMetric
  rw [List.reverse_append, List.find?_append]
  have hnone : l2.reverse.find? (fun p => p.1 == n) = none := by
    rw [List.find?_eq_none]
    intro p hp
    simpa using h p (List.mem_reverse.mp hp)
  rw [hnone]
  rfl

lemma foldl_append_eq (g : Nat → List Entry) :
    ∀ (l : List Nat) (acc : List Entry),
      l.foldl (fun a x => a ++ g x) acc = acc ++ (l.map g).flatten := by
  intro l
  induction l with
  | nil => intro acc; simp
  | cons x xs ih =>
    intro acc
    simp only [List.foldl_cons, List.map_cons, List.flatten_cons]
    rw [ih, List.append_assoc]

lemma perSizeEntries_keys (tc : Nat) (st : WorkerStats) (duration : ℚ) (size : Nat) :
    ∀ p ∈ perSizeEntries tc st duration size,
      p.1 = MetricName.sizeThroughput tc size ∨ p.1 = MetricName.sizeErrors tc size ∨
      (∃ c, p.1 = MetricName.sizeStatus tc size c) ∨ (∃ q, p.1 = MetricName.sizeP tc size q) := by
  intro p hp
  unfold perSizeEntries at hp
  simp only [List.mem_append, List.mem_cons, List.not_mem_nil, or_false, List.mem_map] at hp
  rcases hp with ((rfl | rfl) | ⟨q, hq, rfl⟩) | hlat
  · exact Or.inl rfl
  · exact Or.inr (Or.inl rfl)
  · exact Or.inr (Or.inr (Or.inl ⟨q.1.getD 0, rfl⟩))
  · split at hlat
    · simp only [List.mem_cons, List.not_mem_nil, or_false] at hlat
      rcases hlat with rfl | rfl | rfl
      · exact Or.inr (Or.inr (Or.inr ⟨50, rfl⟩))
      · exact Or.inr (Or.inr (Or.inr ⟨95, rfl⟩))
      · exact Or.inr (Or.inr (Or.inr ⟨99, rfl⟩))
    · simp at hlat

lemma getMetric_recordCompute_overall (tc : Nat) (st : WorkerStats) (d : ℚ)
    (r : List Entry) :
    getMetric (recordComputeMetrics tc st d r) (MetricName.threadsThroughput tc)
      = some ((totalRequests st : ℚ) / guardDuration d, MetricUnit.reqPerSec) := by
  unfold recordComputeMetrics
  rw [foldl_append_eq]
  rw [getMetric_append_right]
  · unfold getMetric
    rw [List.reverse_append]
    have h1 : (MetricName.threadsErrors tc == MetricName.threadsThroughput tc) = false := by
      simp
    have h2 : (MetricName.threadsThroughput tc == MetricName.threadsThroughput tc) = true := by
      simp
    simp [List.find?, h1, h2]
  · intro p hp
    simp only [List.mem_flatten, List.mem_map] at hp
    obtain ⟨seg, ⟨size, hsz, rfl⟩, hpseg⟩ := hp
    rcases perSizeEntries_keys tc st (guardDuration d) size p hpseg with
      hk | hk | ⟨c, hk⟩ | ⟨q, hk⟩ <;> simp [hk]

lemma getMetric_append_left_of_isSome (acc ll : List Entry) (n : MetricName)
    (h : (getMetric ll n).isSome) : getMetric (acc ++ ll) n = getMetric ll n := by
  unfold getMetric at h ⊢
  rw [List.reverse_append, List.find?_append]
  match hf : ll.reverse.find? (fun p => p.1 == n) with
  | some p => simp [hf]
  | none => rw [hf] at h; simp at h

lemma getMetric_perSize_throughput (tc : Nat) (st : WorkerStats) (duration : ℚ)
    (size : Nat) :
    getMetric (perSizeEntries tc st duration size) (MetricName.sizeThroughput tc size)
      = some ((st.totals size : ℚ) / duration, MetricUnit.reqPerSec) := by
  unfold perSizeEntries
  rw [getMetric_append_right]
  · rw [getMetric_append_right]
    · unfold getMetric
      have h1 : (MetricName.sizeErrors tc size == MetricName.sizeThroughput tc size)
          = false := by simp
      have h2 : (MetricName.sizeThroughput tc size == MetricName.sizeThroughput tc size)
          = true := by simp
      simp [List.find?, h1, h2]
    · intro p hp
      simp only [List.mem_map] at hp
      obtain ⟨q, hq, rfl⟩ := hp
      simp
  · intro p hp
    split at hp
    · simp only [List.mem_cons, List.not_mem_nil, or_false] at hp
      rcases hp with rfl | rfl | rfl <;> simp
    · simp at hp

lemma getMetric_flatten_of_mem (g : Nat → List Entry) (n : MetricName) (v : ℚ × MetricUnit) :
    ∀ (l : List Nat) (acc : List Entry) (size : Nat), size ∈ l →
      getMetric (g size) n = some v →
      (∀ s ∈ l, s ≠ size → ∀ p ∈ g s, p.1 ≠ n) →
      getMetric (acc ++ (l.map g).flatten) n = some v := by
  intro l
  induction l with
  | nil => intro acc size h; simp at h
  | cons x xs ih =>
    intro acc size hmem hv hothers
    simp only [List.map_cons, List.flatten_cons]
    by_cases hxs : size ∈ xs
    · rw [← List.append_assoc]
      exact ih (acc ++ g x) size hxs hv (fun s hs => hothers s (by simp [hs]))
    · have hxsize : x = size := by
        rcases List.mem_cons.mp hmem with h | h
        · exact h.symm
        · exact absurd h hxs
      subst hxsize
      rw [← List.append_assoc]
      rw [getMetric_append_right (acc ++ g x) ((xs.map g).flatten) n ?later]
      · rw [getMetric_append_left_of_isSome acc (g x) n (by rw [hv]; rfl), hv]
      case later =>
        intro p hp
        simp only [List.mem_flatten, List.mem_map] at hp
        obtain ⟨seg, ⟨s, hs, rfl⟩, hpseg⟩ := hp
        have hsne : s ≠ x := fun h => hxs (h ▸ hs)
        exact hothers s (by simp [hs]) hsne p hpseg

/-- C7: for every thread count, the warm-up pass is discarded: the recorded
metrics depend only on the statistics and measured duration returned by the
measurement-phase run (the result is identical for any two warm-up
environments), and the warm-up run leaves the results mapping that the
recording starts from unchanged. -/
theorem warmup_discarded (tc : Nat) (w w2 m : RunEnv) (r : List Entry) :
    benchmarkComputeOne tc w m r = benchmarkComputeOne tc w2 m r ∧
    benchmarkComputeOne tc w m r
      = recordComputeMetrics tc (run_threads true m).1 (run_threads true m).2 r :=
  ⟨rfl, rfl⟩

/-- C8: every throughput metric reported by the built-in engine divides by the
measured wall-clock elapsed time of the measurement phase (the value of
`time.perf_counter() - start_ts` returned by `run_threads`), not the requested
run duration: both the overall and the per-size throughput entries equal the
completed attempt counts divided by that measured elapsed time. -/
theorem throughput_uses_measured_elapsed (tc : Nat) (w m : RunEnv) (r : List Entry)
    (hd : 0 < m.measured) :
    (getMetric (benchmarkComputeOne tc w m r) (MetricName.threadsThroughput tc)
        = some ((totalRequests (run_threads true m).1 : ℚ) / m.measured,
            MetricUnit.reqPerSec)) ∧
    (∀ size ∈ sizes,
      getMetric (benchmarkComputeOne tc w m r) (MetricName.sizeThroughput tc size)
        = some (((run_threads true m).1.totals size : ℚ) / m.measured,
            MetricUnit.reqPerSec)) := by
  have hguard : guardDuration m.measured = m.measured := by
    unfold guardDuration
    rw [if_neg (not_le.mpr hd)]
  have hrun : benchmarkComputeOne tc w m r
      = recordComputeMetrics tc (run_threads true m).1 m.measured r := rfl
  constructor
  · rw [hrun, getMetric_recordCompute_overall, hguard]
  · intro size hsz
    rw [hrun]
    unfold recordComputeMetrics
    rw [foldl_append_eq]
    apply getMetric_flatten_of_mem _ _ _ sizes _ size hsz
    · rw [getMetric_perSize_throughput, hguard]
    · intro s hs hne p hp
      rcases perSizeEntries_keys tc _ _ s p hp with hk | hk | ⟨c, hk⟩ | ⟨q, hk⟩ <;>
        simp [hk, hne]

theorem throughput_uses_measured_elapsed_witness :
    (0 : ℚ) < trivialRunEnv.measured ∧
    getMetric (benchmarkComputeOne 4 trivialRunEnv trivialRunEnv [])
        (MetricName.threadsThroughput 4)
      = some ((totalRequests (run_threads true trivialRunEnv).1 : ℚ)
          / trivialRunEnv.measured, MetricUnit.reqPerSec) :=
  ⟨by norm_num [trivialRunEnv],
    (throughput_uses_measured_elapsed 4 trivialRunEnv trivialRunEnv []
      (by norm_num [trivialRunEnv])).1⟩

/-- C10: the metric computations of the built-in legacy client never divide by
zero: the measured duration is replaced by 1e-6 when it is not positive before
being used as the throughput denominator, and the success-rate computation of
the validation benchmark divides by `max(total_requests, 1)`, so both are total
even when no requests completed. -/
theorem metric_divisions_total (tc : Nat) (st : WorkerStats) (d : ℚ) (r : List Entry)
    (tV tI s : Nat) :
    (0 < guardDuration d) ∧
    (guardDuration d = if d ≤ 0 then 1 / 1000000 else d) ∧
    (getMetric (recordComputeMetrics tc st d r) (MetricName.threadsThroughput tc)
        = some ((totalRequests st : ℚ) / guardDuration d, MetricUnit.reqPerSec)) ∧
    (0 < max (tV + tI) 1) ∧
    (getMetric (recordValidationSummary tc tV tI s d) (MetricName.threadsSuccessRate tc)
        = some (((s : ℚ) / ((max (tV + tI) 1 : Nat) : ℚ)) * 100, MetricUnit.pctSuccess)) := by
  refine ⟨?_, rfl, getMetric_recordCompute_overall tc st d r, by omega, ?_⟩
  · unfold guardDuration
    split
    · norm_num
    · rename_i hpos
      exact lt_of_not_le hpos
  · unfold recordValidationSummary getMetric
    have h2 : (MetricName.threadsSuccessRate tc == MetricName.threadsSuccessRate tc)
        = true := by simp
    have h1 : (MetricName.threadsThroughput tc == MetricName.threadsSuccessRate tc)
        = false := by simp
    simp [List.find?, h1, h2]

lemma wrkFold_stays_false : ∀ (outs : List (Option WrkOut)) (res : List Entry),
    (outs.foldl wrkStep (false, res)).1 = false := by
  intro outs
  induction outs with
  | nil => intro res; rfl
  | cons o os ih =>
    intro res
    cases o with
    | none => exact ih res
    | some w =>
      simp only [List.foldl_cons, wrkStep]
      split
      · exact ih _
      · exact ih _

lemma wrkFold_bad_false : ∀ (outs : List (Option WrkOut)) (b : Bool) (res : List Entry),
    (∃ o ∈ outs, wrkBad o) → (outs.foldl wrkStep (b, res)).1 = false := by
  intro outs
  induction outs with
  | nil => intro b res h; simp at h
  | cons o os ih =>
    intro b res h
    obtain ⟨o2, ho2, hbad⟩ := h
    rcases List.mem_cons.mp ho2 with rfl | hmem
    · rcases hbad with rfl | ⟨w, rfl, hw⟩
      · exact wrkFold_stays_false os res
      · simp only [List.foldl_cons, wrkStep, if_pos hw]
        exact wrkFold_stays_false os _
    · cases o with
      | none => exact wrkFold_stays_false os res
      | some w =>
        simp only [List.foldl_cons, wrkStep]
        exact ih _ _ ⟨o2, hmem, hbad⟩

/-- C9: whenever the wrk backend produced no output for some scenario, or its
parsed results show any socket errors or a throughput below the 1000 req/s
sanity floor, all wrk-derived metrics for the category are discarded (the
mapping is reset to empty) and the run proceeds via the built-in legacy client
on that empty mapping; the fallback is a normal return, not a hard failure. -/
theorem wrk_sanity_fallback (outs : List (Option WrkOut)) (legacy : List Entry → List Entry)
    (results : List Entry) (hbad : ∃ o ∈ outs, wrkBad o) :
    benchmarkWithWrk outs legacy results = legacy [] := by
  unfold benchmarkWithWrk wrkLoop
  rw [if_neg]
  rw [wrkFold_bad_false outs true results hbad]
  simp

theorem wrk_sanity_fallback_witness :
    (∃ o ∈ [(none : Option WrkOut)], wrkBad o) ∧
    benchmarkWithWrk [none] (fun l => l) [] = [] :=
  ⟨⟨none, List.mem_singleton.mpr rfl, Or.inl rfl⟩,
    wrk_sanity_fallback [none] (fun l => l) []
      ⟨none, List.mem_singleton.mpr rfl, Or.inl rfl⟩⟩

